import Mathlib

/-!
Shallow embedding of `email-validator-strict` (src/index.ts) and proofs of the
specification claims.

Strings are modelled as `List Char` (the code operates on JavaScript strings,
which we read as sequences of Unicode scalar values).  The two anchored
regexes are embedded as executable whole-string matchers: because every
sub-pattern that is repeated with a separator excludes the separator character
from its character class, an anchored match is exactly a split on the
separator with each piece matching the piece pattern.  The only sub-pattern
that may contain `@` is the quoted local part, so the `@` the rfc regex
consumes between the local and domain alternatives is necessarily the last
`@` of the input, which the matcher reflects by splitting on every `@` and
re-joining all but the final segment.
-/

namespace EmailValidatorStrict

/-! ### Character classes

Each `Bool`-valued class embeds one regex character class from the source,
written with code points to keep the mapping to the regex text explicit. -/

/-- The JavaScript `\s` class and the set trimmed by `String.prototype.trim`:
tab..carriage-return, space, NBSP, Ogham space, the U+2000..U+200A range,
line/paragraph separators, narrow NBSP, medium mathematical space,
ideographic space and the BOM. -/
def jsWhitespace (c : Char) : Bool :=
  decide ((0x09 ≤ c.toNat ∧ c.toNat ≤ 0x0D) ∨ c.toNat = 0x20 ∨ c.toNat = 0xA0 ∨
    c.toNat = 0x1680 ∨ (0x2000 ≤ c.toNat ∧ c.toNat ≤ 0x200A) ∨ c.toNat = 0x2028 ∨
    c.toNat = 0x2029 ∨ c.toNat = 0x202F ∨ c.toNat = 0x205F ∨ c.toNat = 0x3000 ∨
    c.toNat = 0xFEFF)

/-- The JavaScript regex `.` (no `s` flag): any character except the four
line terminators. -/
def jsDotChar (c : Char) : Bool :=
  !([0x0A, 0x0D, 0x2028, 0x2029].contains c.toNat)

/-- `[A-Za-z]`. -/
def isAsciiAlpha (c : Char) : Bool :=
  decide ((0x41 ≤ c.toNat ∧ c.toNat ≤ 0x5A) ∨ (0x61 ≤ c.toNat ∧ c.toNat ≤ 0x7A))

/-- `[0-9]`. -/
def isAsciiDigit (c : Char) : Bool :=
  decide (0x30 ≤ c.toNat ∧ c.toNat ≤ 0x39)

/-- `[a-zA-Z0-9]`. -/
def isAsciiAlnum (c : Char) : Bool :=
  isAsciiAlpha c || isAsciiDigit c

/-- `[a-zA-Z0-9-]`: the interior class of real-world domain labels and the
whole label class of `rfcDomain`. -/
def isAlnumHyphen (c : Char) : Bool :=
  isAsciiAlnum c || decide (c.toNat = 0x2D)

/-- The real-world local-part class `[^<>()[\]\\.,;:\s@"]`: anything except
`< > ( ) [ ] \ . , ; : @ "` and JavaScript whitespace.  Note this is a
negated class: it admits every other Unicode character. -/
def rwLocalChar (c : Char) : Bool :=
  !([0x3C, 0x3E, 0x28, 0x29, 0x5B, 0x5D, 0x5C, 0x2E, 0x2C, 0x3B, 0x3A, 0x40,
      0x22].contains c.toNat || jsWhitespace c)

/-- The rfc dot-atom class (code points of
alphanumerics and the nineteen specials of `rfcUnquotedLocal`). -/
def rfcAtomChar (c : Char) : Bool :=
  isAsciiAlnum c ||
    [0x21, 0x23, 0x24, 0x25, 0x26, 0x27, 0x2A, 0x2B, 0x2F, 0x3D, 0x3F, 0x5E,
      0x5F, 0x60, 0x7B, 0x7C, 0x7D, 0x7E, 0x2D].contains c.toNat

/-- `[a-fA-F0-9:]`, the interior class of the rfc IPv6 literal. -/
def hexColonChar (c : Char) : Bool :=
  isAsciiDigit c || decide (0x41 ≤ c.toNat ∧ c.toNat ≤ 0x46) ||
    decide (0x61 ≤ c.toNat ∧ c.toNat ≤ 0x66) || decide (c.toNat = 0x3A)

/-! ### List helpers: JavaScript `split` on a single character, join, trim -/

/-- Prepend a character to the first piece of a split (helper of
`splitOnChar`). -/
def consHead (c : Char) : List (List Char) → List (List Char)
  | [] => [[c]]
  | p :: ps => (c :: p) :: ps

/-- `String.prototype.split(sep)` for a single-character separator: splits at
every occurrence, keeping empty pieces; the result is always non-empty. -/
def splitOnChar (sep : Char) : List Char → List (List Char)
  | [] => [[]]
  | c :: rest =>
    if c = sep then [] :: splitOnChar sep rest
    else consHead c (splitOnChar sep rest)

/-- Inverse of `splitOnChar`: interleave the separator between the pieces. -/
def joinChar (sep : Char) : List (List Char) → List Char
  | [] => []
  | [p] => p
  | p :: q :: ps => p ++ sep :: joinChar sep (q :: ps)

/-- `String.prototype.trim()`. -/
def jsTrim (l : List Char) : List Char :=
  ((l.dropWhile jsWhitespace).reverse.dropWhile jsWhitespace).reverse

/-! ### The `real-world` regex

`/^([^<>()[\]\\.,;:\s@"]+(\.[^<>()[\]\\.,;:\s@"]+)*)@(([a-zA-Z0-9](?:[a-zA-Z0-9-]*[a-zA-Z0-9])?\.)+[a-zA-Z]{2,})$/i`
(the `i` flag is inert: every class already contains both letter cases). -/

/-- Local part `[^...]+(\.[^...]+)*`: one or more non-empty dot-separated
segments of `rwLocalChar` characters (the class excludes the dot, so an
anchored match is exactly this split). -/
def realWorldLocal (a : List Char) : Bool :=
  (splitOnChar '.' a).all (fun seg => !seg.isEmpty && seg.all rwLocalChar)

/-- A domain label `[a-zA-Z0-9](?:[a-zA-Z0-9-]*[a-zA-Z0-9])?`: first and last
character alphanumeric, hyphens only in the interior. -/
def rwLabel : List Char → Bool
  | [] => false
  | [c] => isAsciiAlnum c
  | c :: rest =>
    isAsciiAlnum c && rest.dropLast.all isAlnumHyphen &&
      (match rest.getLast? with
       | some d => isAsciiAlnum d
       | none => false)

/-- The final label `[a-zA-Z]{2,}`. -/
def rwTld (t : List Char) : Bool :=
  decide (2 ≤ t.length) && t.all isAsciiAlpha

/-- Domain part `(label\.)+[a-zA-Z]{2,}`: at least two dot-separated pieces,
all but the last a `rwLabel`, the last a `rwTld`. -/
def realWorldDomain (b : List Char) : Bool :=
  let labels := splitOnChar '.' b
  decide (2 ≤ labels.length) && labels.dropLast.all rwLabel &&
    (match labels.getLast? with
     | some t => rwTld t
     | none => false)

/-- `realWorldEmailRegex.test`: both the local and domain classes exclude
`@`, so the string must contain exactly one `@`, splitting it into the local
and domain parts. -/
def realWorldEmailRegex (l : List Char) : Bool :=
  match splitOnChar '@' l with
  | [a, b] => realWorldLocal a && realWorldDomain b
  | _ => false

/-! ### The `rfc` regex

`^(rfcUnquotedLocal|rfcQuotedLocal)@(rfcDomain|rfcIPv4|rfcIPv6)$`, built from
the component patterns of the source (no flags, hence case sensitive). -/

/-- `rfcUnquotedLocal = [a-zA-Z0-9!#$%&'*+/=?^_\x60{|}~-]+(\.[...]+)*`. -/
def rfcUnquotedLocal (a : List Char) : Bool :=
  (splitOnChar '.' a).all (fun seg => !seg.isEmpty && seg.all rfcAtomChar)

/-- Body of the quoted form, `([^"\\]|\\.)*`: the decomposition is
deterministic because a backslash can only start an escaped pair. -/
def rfcQuotedBody : List Char → Bool
  | [] => true
  | [c] => !decide (c.toNat = 0x5C) && !decide (c.toNat = 0x22)
  | c :: d :: rest =>
    if c.toNat = 0x5C then jsDotChar d && rfcQuotedBody rest
    else !decide (c.toNat = 0x22) && rfcQuotedBody (d :: rest)

/-- `rfcQuotedLocal = "([^"\\]|\\.)*"`: an opening quote, the body, a closing
quote. -/
def rfcQuotedLocal (a : List Char) : Bool :=
  match a with
  | c :: rest =>
    decide (c.toNat = 0x22) &&
      (match rest.getLast? with
       | some e => decide (e.toNat = 0x22) && rfcQuotedBody rest.dropLast
       | none => false)
  | [] => false

/-- `rfcDomain = ([a-zA-Z0-9-]+\.)*[a-zA-Z0-9-]+`: one or more non-empty
dot-separated runs of `[a-zA-Z0-9-]` (single labels allowed, hyphens
anywhere). -/
def rfcDomain (d : List Char) : Bool :=
  (splitOnChar '.' d).all (fun lab => !lab.isEmpty && lab.all isAlnumHyphen)

/-- One octet `(25[0-5]|2[0-4][0-9]|[01]?[0-9][0-9]?)`. -/
def ipv4Octet : List Char → Bool
  | [a] => isAsciiDigit a
  | [a, b] => isAsciiDigit a && isAsciiDigit b
  | [a, b, c] =>
    (decide (a.toNat = 0x32) && decide (b.toNat = 0x35) &&
        decide (0x30 ≤ c.toNat ∧ c.toNat ≤ 0x35)) ||
      (decide (a.toNat = 0x32) && decide (0x30 ≤ b.toNat ∧ b.toNat ≤ 0x34) &&
        isAsciiDigit c) ||
      ((decide (a.toNat = 0x30) || decide (a.toNat = 0x31)) && isAsciiDigit b &&
        isAsciiDigit c)
  | _ => false

/-- `rfcIPv4 = \[octet(\.octet){3}\]`: a bracketed run of exactly four
dot-separated octets. -/
def rfcIPv4 (d : List Char) : Bool :=
  match d with
  | c :: rest =>
    decide (c.toNat = 0x5B) &&
      (match rest.getLast? with
       | some e =>
         decide (e.toNat = 0x5D) &&
           (let parts := splitOnChar '.' rest.dropLast
            decide (parts.length = 4) && parts.all ipv4Octet)
       | none => false)
  | [] => false

/-- `rfcIPv6 = \[IPv6:[a-fA-F0-9:]+\]` (structural check only, exactly as in
the source). -/
def rfcIPv6 (d : List Char) : Bool :=
  match d with
  | c1 :: c2 :: c3 :: c4 :: c5 :: c6 :: rest =>
    decide (c1.toNat = 0x5B) && decide (c2.toNat = 0x49) &&
      decide (c3.toNat = 0x50) && decide (c4.toNat = 0x76) &&
      decide (c5.toNat = 0x36) && decide (c6.toNat = 0x3A) &&
      (match rest.getLast? with
       | some e =>
         decide (e.toNat = 0x5D) && !rest.dropLast.isEmpty &&
           rest.dropLast.all hexColonChar
       | none => false)
  | _ => false

/-- The local-part alternative of the rfc regex. -/
def rfcLocalPart (a : List Char) : Bool :=
  rfcUnquotedLocal a || rfcQuotedLocal a

/-- The domain alternative of the rfc regex. -/
def rfcDomainPart (d : List Char) : Bool :=
  rfcDomain d || rfcIPv4 d || rfcIPv6 d

/-- `rfcSyntaxRegex.test`: all three domain alternatives exclude `@`, so the
`@` consumed by the regex is the last `@` of the input; everything before it
is the local part, everything after it the domain part. -/
def rfcSyntaxRegex (l : List Char) : Bool :=
  match splitOnChar '@' l with
  | p :: q :: ps =>
    rfcLocalPart (joinChar '@' ((p :: q :: ps).dropLast)) &&
      rfcDomainPart ((p :: q :: ps).getLastD [])
  | _ => false

/-! ### Post-regex refinement, data model and `validateEmailStrict` -/

/-- `domainPart.startsWith('[')`. -/
def startsWithBracket (l : List Char) : Bool :=
  match l with
  | c :: _ => decide (c.toNat = 0x5B)
  | [] => false

/-- The rfc-only post-regex refinement block (source lines 87-101), as a
predicate that is `false` exactly when one of its two `return false`
statements fires.  `domainPart` is `trimmedEmail.split('@')[1]` — the segment
between the first and second `@` — and both `undefined` (no `@`) and the
empty string are falsy in the `if (domainPart)` guard. -/
def rfcRefine (trimmedEmail : List Char) : Bool :=
  match (splitOnChar '@' trimmedEmail).get? 1 with
  | none => true
  | some domainPart =>
    if domainPart.isEmpty then true
    else if startsWithBracket domainPart then true
    else
      let labels := splitOnChar '.' domainPart
      match labels.getLast? with
      | none => true
      | some tld =>
        if tld.isEmpty then false
        else !(labels.any List.isEmpty)

/-- `ValidationMode = 'real-world' | 'rfc'`. -/
inductive ValidationMode where
  | realWorld
  | rfc
deriving DecidableEq

/-- `ValidatorOptions`: both fields optional, as in the interface. -/
structure ValidatorOptions where
  checkDomain : Option Bool
  validationMode : Option ValidationMode
deriving DecidableEq

/-- One MX record as surfaced by `dns.resolveMx`. -/
structure MxRecord where
  exchange : String
  priority : Nat
deriving DecidableEq

/-- Outcome of the `dns.resolveMx` collaborator: resolution with a list of
records, or a rejection carrying an optional `code` property. -/
inductive MxOutcome where
  | ok (records : List MxRecord)
  | err (code : Option String)
deriving DecidableEq

/-- A JavaScript value passed as the `email` argument (the function checks
`typeof email !== 'string'` at runtime). -/
inductive JsValue where
  | str (s : String)
  | num (n : Int)
  | boolVal (b : Bool)
  | nullVal
  | undefinedVal
  | objectVal
  | arrayVal
deriving DecidableEq

/-- `typeof email === 'string'`. -/
def JsValue.isStr : JsValue → Bool
  | .str _ => true
  | _ => false

/-- The thrown contract violation. -/
inductive ValidateError where
  | typeError (msg : String)
deriving DecidableEq

deriving instance DecidableEq for Except

/-- The combined syntax decision of a policy: the regex test plus, for rfc,
the refinement pass (spec: the Syntax Classifier including the rfc-only
refinement). -/
def syntaxAccepts (mode : ValidationMode) (t : List Char) : Bool :=
  match mode with
  | ValidationMode.realWorld => realWorldEmailRegex t
  | ValidationMode.rfc => rfcSyntaxRegex t && rfcRefine t

/-- Body of `validateEmailStrict` after the type check, for a string input.
Returns the boolean result together with the trace of domains passed to the
`resolveMx` collaborator (the source performs at most one lookup).  This
mirrors the source line by line: trim and empty check; mode defaulting via
`options?.validationMode ?? 'real-world'`; regex test; rfc refinement;
`options?.checkDomain ?? false`; extraction of `trimmedEmail.split('@')[1]`
with its falsy guard; and the `try`/`catch` around `dns.resolveMx`, whose
classified-code branch and catch-all both return `false`. -/
def validateStringCore (s : String) (options : Option ValidatorOptions)
    (resolveMx : String → MxOutcome) : Bool × List String :=
  let trimmedEmail := jsTrim s.data
  if trimmedEmail.isEmpty then (false, [])
  else
    let validationMode :=
      (options.bind ValidatorOptions.validationMode).getD ValidationMode.realWorld
    let syntaxOk :=
      match validationMode with
      | ValidationMode.rfc => rfcSyntaxRegex trimmedEmail
      | ValidationMode.realWorld => realWorldEmailRegex trimmedEmail
    if !syntaxOk then (false, [])
    else
      let refineOk :=
        match validationMode with
        | ValidationMode.rfc => rfcRefine trimmedEmail
        | ValidationMode.realWorld => true
      if !refineOk then (false, [])
      else
        let checkDomain := (options.bind ValidatorOptions.checkDomain).getD false
        if !checkDomain then (true, [])
        else
          match (splitOnChar '@' trimmedEmail).get? 1 with
          | none => (false, [])
          | some domain =>
            if domain.isEmpty then (false, [])
            else
              let dstr := String.mk domain
              match resolveMx dstr with
              | MxOutcome.ok mxRecords => (decide (0 < mxRecords.length), [dstr])
              | MxOutcome.err code =>
                match code with
                | some c =>
                  if c == "ENOTFOUND" || c == "ENODATA" || c == "ESERVFAIL" ||
                      c == "ETIMEOUT" then (false, [dstr])
                  else (false, [dstr])
                | none => (false, [dstr])

/-- `validateEmailStrict(email, options)`: throws `TypeError` for non-string
input, otherwise runs `validateStringCore`.  The second component is the
trace of arguments given to the MX-lookup collaborator. -/
def validateEmailStrict (email : JsValue) (options : Option ValidatorOptions)
    (resolveMx : String → MxOutcome) :
    Except ValidateError Bool × List String :=
  match email with
  | JsValue.str s =>
    let r := validateStringCore s options resolveMx
    (Except.ok r.1, r.2)
  | _ => (Except.error (ValidateError.typeError "Input must be a string."), [])

/-! ### Lemmas about `splitOnChar` -/

theorem consHead_ne_nil (c : Char) (L : List (List Char)) : consHead c L ≠ [] := by
  cases L <;> simp [consHead]

theorem splitOnChar_ne_nil (sep : Char) (l : List Char) : splitOnChar sep l ≠ [] := by
  induction l with
  | nil => simp [splitOnChar]
  | cons c rest ih =>
    simp only [splitOnChar]
    split
    · simp
    · exact consHead_ne_nil c _

/-- No piece of a split contains the separator. -/
theorem not_sep_of_mem_splitOnChar (sep : Char) :
    ∀ (l : List Char) (p : List Char), p ∈ splitOnChar sep l → sep ∉ p := by
  intro l
  induction l with
  | nil =>
    intro p hp
    simp [splitOnChar] at hp
    subst hp
    simp
  | cons c rest ih =>
    intro p hp
    simp only [splitOnChar] at hp
    by_cases hc : c = sep
    · rw [if_pos hc] at hp
      rcases List.mem_cons.mp hp with h | h
      · subst h; simp
      · exact ih p h
    · rw [if_neg hc] at hp
      cases hsp : splitOnChar sep rest with
      | nil => exact absurd hsp (splitOnChar_ne_nil sep rest)
      | cons q qs =>
        rw [hsp] at hp
        simp only [consHead] at hp
        rcases List.mem_cons.mp hp with h | h
        · subst h
          intro hmem
          rcases List.mem_cons.mp hmem with h₂ | h₂
          · exact hc h₂.symm
          · exact ih q (by rw [hsp]; exact List.mem_cons_self q qs) h₂
        · exact ih p (by rw [hsp]; exact List.mem_cons_of_mem q h)

/-- Every character of a piece of a split is a character of the original
list. -/
theorem mem_of_mem_splitOnChar (sep : Char) (c : Char) :
    ∀ (l : List Char) (p : List Char), p ∈ splitOnChar sep l → c ∈ p → c ∈ l := by
  intro l
  induction l with
  | nil =>
    intro p hp hc
    simp [splitOnChar] at hp
    subst hp
    simp at hc
  | cons a rest ih =>
    intro p hp hc
    simp only [splitOnChar] at hp
    by_cases ha : a = sep
    · rw [if_pos ha] at hp
      rcases List.mem_cons.mp hp with h | h
      · subst h; simp at hc
      · exact List.mem_cons_of_mem a (ih p h hc)
    · rw [if_neg ha] at hp
      cases hsp : splitOnChar sep rest with
      | nil => exact absurd hsp (splitOnChar_ne_nil sep rest)
      | cons q qs =>
        rw [hsp] at hp
        simp only [consHead] at hp
        rcases List.mem_cons.mp hp with h | h
        · subst h
          rcases List.mem_cons.mp hc with h₂ | h₂
          · subst h₂; exact List.mem_cons_self c rest
          · refine List.mem_cons_of_mem a (ih q ?_ h₂)
            rw [hsp]; exact List.mem_cons_self q qs
        · refine List.mem_cons_of_mem a (ih p ?_ hc)
          rw [hsp]; exact List.mem_cons_of_mem q h

/-- Every character of the original list is the separator or lies in some
piece of the split. -/
theorem mem_splitOnChar_cover (sep : Char) (c : Char) :
    ∀ (l : List Char), c ∈ l → c = sep ∨ ∃ p ∈ splitOnChar sep l, c ∈ p := by
  intro l
  induction l with
  | nil => intro hc; simp at hc
  | cons a rest ih =>
    intro hc
    simp only [splitOnChar]
    rcases List.mem_cons.mp hc with h | h
    · subst h
      by_cases ha : c = sep
      · exact Or.inl ha
      · right
        rw [if_neg ha]
        cases hsp : splitOnChar sep rest with
        | nil => exact absurd hsp (splitOnChar_ne_nil sep rest)
        | cons q qs =>
          simp only [consHead]
          exact ⟨c :: q, List.mem_cons_self _ _, List.mem_cons_self c q⟩
    · rcases ih h with h₂ | ⟨p, hp, hcp⟩
      · exact Or.inl h₂
      · right
        by_cases ha : a = sep
        · rw [if_pos ha]
          exact ⟨p, List.mem_cons_of_mem [] hp, hcp⟩
        · rw [if_neg ha]
          cases hsp : splitOnChar sep rest with
          | nil => exact absurd hsp (splitOnChar_ne_nil sep rest)
          | cons q qs =>
            rw [hsp] at hp
            simp only [consHead]
            rcases List.mem_cons.mp hp with h₃ | h₃
            · subst h₃
              exact ⟨a :: p, List.mem_cons_self _ _, List.mem_cons_of_mem a hcp⟩
            · exact ⟨p, List.mem_cons_of_mem (a :: q) h₃, hcp⟩

/-- `getLast?` returns a member of the list. -/
theorem mem_of_getLastQ {α : Type} :
    ∀ (l : List α) (a : α), l.getLast? = some a → a ∈ l
  | [], a => by simp
  | [x], a => by
    intro h
    simp only [List.getLast?_singleton, Option.some.injEq] at h
    subst h
    exact List.mem_cons_self x []
  | x :: y :: t, a => by
    intro h
    rw [List.getLast?_cons_cons] at h
    exact List.mem_cons_of_mem x (mem_of_getLastQ (y :: t) a h)

/-- A list all of whose `dropLast` satisfies `r` and whose last element
satisfies `r` satisfies `r` everywhere. -/
theorem all_of_dropLast_getLast {α : Type} (r : α → Bool) :
    ∀ (xs : List α), xs.dropLast.all r = true →
      (∀ z, xs.getLast? = some z → r z = true) → xs.all r = true
  | [] => by intro _ _; rfl
  | [x] => by
    intro _ h₂
    simp only [List.all_cons, List.all_nil, Bool.and_true]
    exact h₂ x rfl
  | x :: y :: t => by
    intro h₁ h₂
    have hd : (x :: y :: t).dropLast = x :: (y :: t).dropLast := rfl
    rw [hd, List.all_cons, Bool.and_eq_true] at h₁
    have htail := all_of_dropLast_getLast r (y :: t) h₁.2
      (fun z hz => h₂ z (by rw [List.getLast?_cons_cons]; exact hz))
    rw [List.all_cons, Bool.and_eq_true]
    exact ⟨h₁.1, htail⟩

/-! ### Inclusion of the real-world classes in the rfc classes -/

theorem isAsciiAlpha_imp_alnumHyphen (c : Char) (h : isAsciiAlpha c = true) :
    isAlnumHyphen c = true := by
  simp [isAlnumHyphen, isAsciiAlnum, h]

theorem isAlnumHyphen_toNat_ne_bracket (c : Char) (h : isAlnumHyphen c = true) :
    c.toNat ≠ 0x5B := by
  simp only [isAlnumHyphen, isAsciiAlnum, isAsciiAlpha, isAsciiDigit,
    Bool.or_eq_true, decide_eq_true_eq] at h
  omega

/-- A real-world domain label consists of `[a-zA-Z0-9-]` characters and is
non-empty. -/
theorem rwLabel_imp :
    ∀ (lab : List Char), rwLabel lab = true →
      (!lab.isEmpty && lab.all isAlnumHyphen) = true
  | [] => by intro h; simp [rwLabel] at h
  | [c] => by
    intro h
    simp only [rwLabel] at h
    simp [isAlnumHyphen, h]
  | c :: d :: t => by
    intro h
    simp only [rwLabel] at h
    rw [Bool.and_eq_true, Bool.and_eq_true] at h
    obtain ⟨⟨hc, hmid⟩, hlast⟩ := h
    cases hgl : (d :: t).getLast? with
    | none =>
      rw [hgl] at hlast
      exact Bool.noConfusion hlast
    | some e =>
      rw [hgl] at hlast
      simp only at hlast
      have hall : (d :: t).all isAlnumHyphen = true := by
        refine all_of_dropLast_getLast _ (d :: t) hmid ?_
        intro z hz
        rw [hgl] at hz
        cases hz
        simp [isAlnumHyphen, hlast]
      simp [List.all_cons, isAlnumHyphen, hc, hall]

/-- The real-world final label (`[a-zA-Z]{2,}`) also fits the rfc label
class. -/
theorem rwTld_imp (t : List Char) (h : rwTld t = true) :
    (!t.isEmpty && t.all isAlnumHyphen) = true := by
  simp only [rwTld, Bool.and_eq_true, decide_eq_true_eq] at h
  obtain ⟨hlen, hall⟩ := h
  cases t with
  | nil => simp at hlen
  | cons x xs =>
    simp only [List.isEmpty_cons, Bool.not_false, Bool.true_and]
    rw [List.all_eq_true] at hall ⊢
    intro c hc
    exact isAsciiAlpha_imp_alnumHyphen c (hall c hc)

/-- Every domain accepted by the real-world grammar is accepted by the rfc
domain grammar. -/
theorem realWorldDomain_imp_rfcDomain (b : List Char)
    (h : realWorldDomain b = true) : rfcDomain b = true := by
  simp only [realWorldDomain] at h
  rw [Bool.and_eq_true, Bool.and_eq_true] at h
  obtain ⟨⟨_, hinit⟩, hlast⟩ := h
  cases hgl : (splitOnChar '.' b).getLast? with
  | none =>
    rw [hgl] at hlast
    exact Bool.noConfusion hlast
  | some t =>
    rw [hgl] at hlast
    simp only [rfcDomain]
    refine all_of_dropLast_getLast _ _ ?_ ?_
    · rw [List.all_eq_true] at hinit ⊢
      intro lab hlab
      exact rwLabel_imp lab (hinit lab hlab)
    · intro z hz
      rw [hgl] at hz
      cases hz
      exact rwTld_imp t hlast

/-- A real-world local part whose characters are all rfc atom characters or
dots is an rfc unquoted local part. -/
theorem realWorldLocal_imp_rfcUnquoted (a : List Char)
    (h : realWorldLocal a = true)
    (hch : ∀ c ∈ a, rfcAtomChar c = true ∨ c = '.') :
    rfcUnquotedLocal a = true := by
  simp only [realWorldLocal] at h
  simp only [rfcUnquotedLocal]
  rw [List.all_eq_true] at h ⊢
  intro seg hseg
  have h₁ := h seg hseg
  rw [Bool.and_eq_true] at h₁ ⊢
  refine ⟨h₁.1, ?_⟩
  rw [List.all_eq_true]
  intro c hc
  rcases hch c (mem_of_mem_splitOnChar '.' c a seg hseg hc) with h₂ | h₂
  · exact h₂
  · exact absurd (h₂ ▸ hc) (not_sep_of_mem_splitOnChar '.' a seg hseg)

/-! ### Claim C1 -/

/-- C1 is false as stated: the real-world local-part class is negated, so it
admits characters (here `é`) outside the positive ASCII atom class of the rfc
grammar; `é@example.com` is accepted by the RealWorld grammar and rejected by
the Rfc grammar (refinement included). -/
theorem realWorld_not_subset_rfc_cex :
    syntaxAccepts ValidationMode.realWorld ("é@example.com").data = true ∧
      syntaxAccepts ValidationMode.rfc ("é@example.com").data = false := by
  decide

/-- C1 (amended): for every string accepted by the RealWorld grammar all of
whose characters lie in the rfc atom class or are a dot or an at sign, the
Rfc grammar — its refinement pass included — also accepts it.  (The
restriction is forced: the RealWorld local class is a negated class, so
without it the inclusion fails, e.g. on `é@example.com`.) -/
theorem realWorld_subset_rfc_of_atomChars (l : List Char)
    (hrw : syntaxAccepts ValidationMode.realWorld l = true)
    (hch : ∀ c ∈ l, rfcAtomChar c = true ∨ c = '.' ∨ c = '@') :
    syntaxAccepts ValidationMode.rfc l = true := by
  simp only [syntaxAccepts] at hrw ⊢
  unfold realWorldEmailRegex at hrw
  split at hrw
  case h_2 => exact Bool.noConfusion hrw
  case h_1 a b heq =>
    rw [Bool.and_eq_true] at hrw
    obtain ⟨ha, hb⟩ := hrw
    have hmema : a ∈ splitOnChar '@' l := by rw [heq]; simp
    have hmemb : b ∈ splitOnChar '@' l := by rw [heq]; simp
    -- the rfc unquoted local accepts a
    have hUnq : rfcUnquotedLocal a = true := by
      refine realWorldLocal_imp_rfcUnquoted a ha ?_
      intro c hc
      rcases hch c (mem_of_mem_splitOnChar '@' c l a hmema hc) with h | h | h
      · exact Or.inl h
      · exact Or.inr h
      · exact absurd (h ▸ hc) (not_sep_of_mem_splitOnChar '@' l a hmema)
    -- the rfc domain accepts b
    have hDom : rfcDomain b = true := realWorldDomain_imp_rfcDomain b hb
    have hbne : b ≠ [] := by
      intro e
      rw [e] at hb
      exact absurd hb (by decide)
    have hlabs :
        ∀ p ∈ splitOnChar '.' b, (!p.isEmpty && p.all isAlnumHyphen) = true := by
      rw [← List.all_eq_true]
      exact hDom
    rw [Bool.and_eq_true]
    constructor
    · -- the rfc regex accepts l
      have hred : rfcSyntaxRegex l =
          (rfcLocalPart a && rfcDomainPart b) := by
        unfold rfcSyntaxRegex
        rw [heq]
        simp [joinChar, List.getLastD]
      rw [hred, Bool.and_eq_true]
      constructor
      · simp [rfcLocalPart, hUnq]
      · simp [rfcDomainPart, hDom]
    · -- the refinement pass accepts l
      unfold rfcRefine
      rw [heq]
      simp only [List.get?]
      cases hbc : b with
      | nil => exact absurd hbc hbne
      | cons c₀ brest =>
        rw [← hbc]
        have hbe : b.isEmpty = false := by rw [hbc]; rfl
        rw [hbe]
        have hbr : startsWithBracket b = false := by
          rw [hbc]
          simp only [startsWithBracket, decide_eq_false_iff_not]
          have hc₀ : c₀ ∈ b := by rw [hbc]; exact List.mem_cons_self _ _
          rcases mem_splitOnChar_cover '.' c₀ b hc₀ with h | ⟨p, hp, hcp⟩
          · rw [h]; decide
          · have := hlabs p hp
            rw [Bool.and_eq_true, List.all_eq_true] at this
            exact isAlnumHyphen_toNat_ne_bracket c₀ (this.2 c₀ hcp)
        rw [hbr]
        simp only [Bool.false_eq_true, ↓reduceIte]
        cases hgl : (splitOnChar '.' b).getLast? with
        | none => rfl
        | some tld =>
          have htld := hlabs tld (mem_of_getLastQ _ tld hgl)
          rw [Bool.and_eq_true] at htld
          have htlde : tld.isEmpty = false := by
            cases h : tld.isEmpty
            · rfl
            · rw [h] at htld; exact Bool.noConfusion htld.1
          have hanyf : (splitOnChar '.' b).any List.isEmpty = false := by
            cases hany : (splitOnChar '.' b).any List.isEmpty
            · rfl
            · exfalso
              rw [List.any_eq_true] at hany
              obtain ⟨p, hp, hpe⟩ := hany
              have hh := hlabs p hp
              rw [Bool.and_eq_true] at hh
              rw [hpe] at hh
              exact Bool.noConfusion hh.1
          simp [htlde, hanyf]

/-- Witness for C1 (amended) at `test@example.com`. -/
theorem realWorld_subset_rfc_of_atomChars_witness :
    syntaxAccepts ValidationMode.realWorld ("test@example.com").data = true ∧
      (∀ c ∈ ("test@example.com").data,
        rfcAtomChar c = true ∨ c = '.' ∨ c = '@') ∧
      syntaxAccepts ValidationMode.rfc ("test@example.com").data = true :=
  ⟨by decide, by decide,
    realWorld_subset_rfc_of_atomChars ("test@example.com").data (by decide)
      (by decide)⟩

/-! ### Claims about `validateEmailStrict` -/

/-- Unfolding of `validateEmailStrict` on a string input. -/
theorem validateEmailStrict_str (s : String) (opts : Option ValidatorOptions)
    (mx : String → MxOutcome) :
    validateEmailStrict (JsValue.str s) opts mx =
      (Except.ok (validateStringCore s opts mx).1,
        (validateStringCore s opts mx).2) := rfl

/-- C3: for every non-string input value and every options value the function
fails with the TypeError before anything else runs (empty lookup trace), and
for string inputs the outcome is always an ordinary boolean, never that
error. -/
theorem nonString_typeError (v : JsValue) (opts : Option ValidatorOptions)
    (mx : String → MxOutcome) :
    (v.isStr = false →
      validateEmailStrict v opts mx =
        (Except.error (ValidateError.typeError "Input must be a string."), [])) ∧
    (∀ s : String,
      (validateEmailStrict (JsValue.str s) opts mx).1 =
        Except.ok (validateStringCore s opts mx).1) := by
  constructor
  · intro hv
    cases v with
    | str s => exact absurd hv (by simp [JsValue.isStr])
    | num n => rfl
    | boolVal b => rfl
    | nullVal => rfl
    | undefinedVal => rfl
    | objectVal => rfl
    | arrayVal => rfl
  · intro s
    rfl

/-- Witness for C3 at the spec example `validate(123 as any)`. -/
theorem nonString_typeError_witness :
    (JsValue.num 123).isStr = false ∧
      validateEmailStrict (JsValue.num 123) none (fun _ => MxOutcome.err none) =
        (Except.error (ValidateError.typeError "Input must be a string."), []) :=
  ⟨rfl,
    (nonString_typeError (JsValue.num 123) none (fun _ => MxOutcome.err none)).1
      rfl⟩

/-- C4: an input that trims to the empty string yields `false` with no MX
lookup, for every options value. -/
theorem whitespace_only_false (s : String) (opts : Option ValidatorOptions)
    (mx : String → MxOutcome) (h : jsTrim s.data = []) :
    validateEmailStrict (JsValue.str s) opts mx = (Except.ok false, []) := by
  rw [validateEmailStrict_str]
  suffices hcore : validateStringCore s opts mx = (false, []) by rw [hcore]
  unfold validateStringCore
  rw [h]
  rfl

/-- Witness for C4 at a whitespace-only input. -/
theorem whitespace_only_false_witness :
    jsTrim ("   ").data = [] ∧
      validateEmailStrict (JsValue.str "   ") none (fun _ => MxOutcome.err none) =
        (Except.ok false, []) :=
  ⟨by decide,
    whitespace_only_false "   " none (fun _ => MxOutcome.err none) (by decide)⟩

/-- C5: whenever the selected policy's syntax check (refinement pass
included) rejects the trimmed input, the function returns `false` — not an
error — and the MX lookup is never invoked, for every options value (hence
for both `checkDomain` settings). -/
theorem syntax_reject_false (s : String) (opts : Option ValidatorOptions)
    (mx : String → MxOutcome)
    (h : syntaxAccepts
        ((opts.bind ValidatorOptions.validationMode).getD ValidationMode.realWorld)
        (jsTrim s.data) = false) :
    validateEmailStrict (JsValue.str s) opts mx = (Except.ok false, []) := by
  rw [validateEmailStrict_str]
  suffices hcore : validateStringCore s opts mx = (false, []) by rw [hcore]
  unfold validateStringCore
  cases h1 : (jsTrim s.data).isEmpty with
  | true => simp [h1]
  | false =>
    cases hm :
        (opts.bind ValidatorOptions.validationMode).getD ValidationMode.realWorld with
    | realWorld =>
      rw [hm] at h
      simp only [syntaxAccepts] at h
      simp [h1, hm, h]
    | rfc =>
      rw [hm] at h
      simp only [syntaxAccepts] at h
      cases hs : rfcSyntaxRegex (jsTrim s.data) with
      | false => simp [h1, hm, hs]
      | true =>
        have hr : rfcRefine (jsTrim s.data) = false := by
          rw [hs] at h
          simpa using h
        simp [h1, hm, hs, hr]

/-- Witness for C5 at a syntactically invalid input. -/
theorem syntax_reject_false_witness :
    syntaxAccepts ValidationMode.realWorld (jsTrim ("not-an-email").data) =
        false ∧
      validateEmailStrict (JsValue.str "not-an-email") none
          (fun _ => MxOutcome.err none) =
        (Except.ok false, []) :=
  ⟨by decide,
    syntax_reject_false "not-an-email" none (fun _ => MxOutcome.err none)
      (by decide)⟩

/-- C6: omitted options (or omitted fields) behave exactly like
`validationMode = 'real-world'` with `checkDomain = false`, and
`validateEmailStrict("test@example.com")` returns `true` with no lookup. -/
theorem default_options_behavior (s : String) (mx : String → MxOutcome) :
    validateEmailStrict (JsValue.str s) none mx =
        validateEmailStrict (JsValue.str s) (some ⟨none, none⟩) mx ∧
      validateEmailStrict (JsValue.str s) none mx =
        validateEmailStrict (JsValue.str s)
          (some ⟨some false, some ValidationMode.realWorld⟩) mx ∧
      validateEmailStrict (JsValue.str "test@example.com") none mx =
        (Except.ok true, []) :=
  ⟨rfl, rfl, rfl⟩

/-- C7: the two policies disagree on the spec's examples: `test@localhost`
and `"user name"@example.com` are rejected by `real-world` and accepted by
`rfc` (no domain check). -/
theorem policy_disagreement_examples (mx : String → MxOutcome) :
    validateEmailStrict (JsValue.str "test@localhost")
        (some ⟨none, some ValidationMode.realWorld⟩) mx = (Except.ok false, []) ∧
      validateEmailStrict (JsValue.str "test@localhost")
        (some ⟨none, some ValidationMode.rfc⟩) mx = (Except.ok true, []) ∧
      validateEmailStrict (JsValue.str "\"user name\"@example.com")
        (some ⟨none, some ValidationMode.realWorld⟩) mx = (Except.ok false, []) ∧
      validateEmailStrict (JsValue.str "\"user name\"@example.com")
        (some ⟨none, some ValidationMode.rfc⟩) mx = (Except.ok true, []) :=
  ⟨rfl, rfl, rfl, rfl⟩

/-- C8: the rfc refinement only blocks empty labels, so single-character
TLDs and hyphen-edge labels still pass under `rfc`. -/
theorem rfc_lenient_examples (mx : String → MxOutcome) :
    validateEmailStrict (JsValue.str "test@example.c")
        (some ⟨none, some ValidationMode.rfc⟩) mx = (Except.ok true, []) ∧
      validateEmailStrict (JsValue.str "test@-example.com")
        (some ⟨none, some ValidationMode.rfc⟩) mx = (Except.ok true, []) ∧
      validateEmailStrict (JsValue.str "test@example-.com")
        (some ⟨none, some ValidationMode.rfc⟩) mx = (Except.ok true, []) :=
  ⟨rfl, rfl, rfl⟩

/-- C9: with `checkDomain = false` the classification is a pure function of
the input string and the mode: the result does not depend on the MX-lookup
collaborator at all (so repeated calls with identical arguments agree), and
the lookup trace is always empty. -/
theorem checkDomain_false_pure (s : String) (vm : Option ValidationMode)
    (mx₁ mx₂ : String → MxOutcome) :
    validateEmailStrict (JsValue.str s) (some ⟨some false, vm⟩) mx₁ =
        validateEmailStrict (JsValue.str s) (some ⟨some false, vm⟩) mx₂ ∧
      (validateEmailStrict (JsValue.str s) (some ⟨some false, vm⟩) mx₁).2 =
        [] := by
  refine ⟨rfl, ?_⟩
  show (validateStringCore s (some ⟨some false, vm⟩) mx₁).2 = []
  simp only [validateStringCore, Option.some_bind, Option.getD_some,
    Bool.not_false, if_true]
  repeat' split
  all_goals rfl

/-! ### Claim C2 -/

/-- C2 is false as stated: `"@@"@x` is syntactically accepted under `rfc`
(quoted local part `"@@"`, domain `x`; the refinement is skipped because
`split('@')[1]` is the falsy empty string), yet with `checkDomain: true` the
function returns `false` without ever invoking the MX lookup — even when the
collaborator would report records — because the extracted
`trimmedEmail.split('@')[1]` is empty and falsy. -/
theorem mx_lookup_skipped_cex :
    syntaxAccepts ValidationMode.rfc (jsTrim ("\"@@\"@x").data) = true ∧
      validateEmailStrict (JsValue.str "\"@@\"@x")
          (some ⟨some true, some ValidationMode.rfc⟩)
          (fun _ => MxOutcome.ok [⟨"mx.example.com", 10⟩]) =
        (Except.ok false, []) := by
  constructor
  · decide
  · decide

/-- C2 (amended): for every syntactically accepted input whose extracted
segment `trimmedEmail.split('@')[1]` is non-empty (true in particular for
every real-world accepted input), `checkDomain: true` makes the function
invoke the MX lookup exactly once with exactly that segment, returning
`true` iff the lookup resolves with one or more records; zero records and
every rejection — classified code or not — yield `false`, with no error
propagated.  (The non-emptiness restriction is forced: on `"@@"@x` the
extracted segment is empty and the lookup is skipped.) -/
theorem mx_lookup_contract (s : String) (vm : Option ValidationMode)
    (mx : String → MxOutcome) (d : List Char)
    (hacc : syntaxAccepts (vm.getD ValidationMode.realWorld) (jsTrim s.data) =
      true)
    (hd : (splitOnChar '@' (jsTrim s.data)).get? 1 = some d)
    (hne : d ≠ []) :
    validateEmailStrict (JsValue.str s) (some ⟨some true, vm⟩) mx =
      (Except.ok (match mx (String.mk d) with
        | MxOutcome.ok recs => decide (0 < recs.length)
        | MxOutcome.err _ => false), [String.mk d]) := by
  rw [validateEmailStrict_str]
  suffices hcore : validateStringCore s (some ⟨some true, vm⟩) mx =
      ((match mx (String.mk d) with
        | MxOutcome.ok recs => decide (0 < recs.length)
        | MxOutcome.err _ => false), [String.mk d]) by rw [hcore]
  have h1 : (jsTrim s.data).isEmpty = false := by
    cases ht : jsTrim s.data with
    | nil =>
      exfalso
      rw [ht] at hacc
      cases hm : vm.getD ValidationMode.realWorld <;> rw [hm] at hacc <;>
        exact absurd hacc (by decide)
    | cons c cs => rfl
  have hde : d.isEmpty = false := by
    cases d with
    | nil => exact absurd rfl hne
    | cons c cs => rfl
  have hfinal : ∀ dstr : String,
      (match mx dstr with
        | MxOutcome.ok mxRecords =>
          ((decide (0 < mxRecords.length) : Bool), [dstr])
        | MxOutcome.err code =>
          match code with
          | some c =>
            if c == "ENOTFOUND" || c == "ENODATA" || c == "ESERVFAIL" ||
                c == "ETIMEOUT" then (false, [dstr])
            else (false, [dstr])
          | none => (false, [dstr])) =
        ((match mx dstr with
          | MxOutcome.ok recs => decide (0 < recs.length)
          | MxOutcome.err _ => false), [dstr]) := by
    intro dstr
    cases hmx : mx dstr with
    | ok recs => rfl
    | err code =>
      cases code with
      | some c => simp only [ite_self]
      | none => rfl
  cases hm : vm.getD ValidationMode.realWorld with
  | realWorld =>
    rw [hm] at hacc
    simp only [syntaxAccepts] at hacc
    simp only [validateStringCore, Option.some_bind, Option.getD_some, h1,
      Bool.false_eq_true, ↓reduceIte, hm, hacc, Bool.not_true, Bool.not_false,
      if_true, hd, hde]
    exact hfinal (String.mk d)
  | rfc =>
    rw [hm] at hacc
    simp only [syntaxAccepts, Bool.and_eq_true] at hacc
    obtain ⟨hs, hr⟩ := hacc
    simp only [validateStringCore, Option.some_bind, Option.getD_some, h1,
      Bool.false_eq_true, ↓reduceIte, hm, hs, hr, Bool.not_true, Bool.not_false,
      if_true, hd, hde]
    exact hfinal (String.mk d)

/-- Witness for C2 (amended) at the spec example `test@example-valid.com`
with a collaborator resolving one record. -/
theorem mx_lookup_contract_witness :
    syntaxAccepts ValidationMode.realWorld
        (jsTrim ("test@example-valid.com").data) = true ∧
      (splitOnChar '@' (jsTrim ("test@example-valid.com").data)).get? 1 =
        some ("example-valid.com").data ∧
      ("example-valid.com").data ≠ [] ∧
      validateEmailStrict (JsValue.str "test@example-valid.com")
          (some ⟨some true, none⟩) (fun _ => MxOutcome.ok [⟨"mx", 5⟩]) =
        (Except.ok true, ["example-valid.com"]) :=
  ⟨by decide, by decide, by decide,
    mx_lookup_contract "test@example-valid.com" none
      (fun _ => MxOutcome.ok [⟨"mx", 5⟩]) ("example-valid.com").data
      (by decide) (by decide) (by decide)⟩

/-! ### Claim C10 -/

/-- C10: for the rfc-accepted input `"a@b"@example.com` (quoted local part
containing an `@`), the string the function uses as the domain — in the
refinement pass and as the MX-lookup argument — is `split('@')[1]`, the
segment `b"` between the first and second `@`, not the actual domain
`example.com` after the final `@`; the lookup is invoked with that
non-domain string. -/
theorem quoted_at_domain_extraction :
    (splitOnChar '@' (jsTrim ("\"a@b\"@example.com").data)).get? 1 =
        some ("b\"").data ∧
      validateEmailStrict (JsValue.str "\"a@b\"@example.com")
          (some ⟨some true, some ValidationMode.rfc⟩)
          (fun _ => MxOutcome.ok [⟨"mx.example.com", 10⟩]) =
        (Except.ok true, ["b\""]) ∧
      ("b\"" : String) ≠ "example.com" ∧
      (splitOnChar '@' (jsTrim ("\"a@b\"@example.com").data)).getLastD [] =
        ("example.com").data := by
  refine ⟨by decide, by decide, by decide, by decide⟩

end EmailValidatorStrict
